import Mathlib

/- Verification of the time-series synthesis engine of the sunmoontide
calendar generator: a shallow embedding of the core logic of `tides.py`
and `astro.py` (sine interpolation, timezone-year resolution, event
stitching, altitude densification, lunar-cycle classification).

Conventions of the embedding:
* Python floats are modelled as real numbers `ℝ` where transcendental
  functions occur (sine interpolation, altitudes), and as rationals `ℚ`
  where only field arithmetic occurs (times, offsets, lunation ratios).
* `ephem.Date` values are days (a float in the source), modelled as `ℚ`.
* Fallible code returns `Option`/`Except`: `none`/`.error` marks a Python
  exception (IndexError, AssertionError, ValueError, ...).
* A float `NaN` marker is modelled as `none` in `Option ℝ`.
-/

open Real

/-! ### Python rounding primitives -/

/-- Python's built-in one-argument `round` on a rational number:
round half to even (banker's rounding), returning an integer. -/
def pyRound (q : ℚ) : ℤ :=
  if q - ⌊q⌋ < 1/2 then ⌊q⌋
  else if 1/2 < q - ⌊q⌋ then ⌊q⌋ + 1
  else if Even ⌊q⌋ then ⌊q⌋ else ⌊q⌋ + 1

theorem pyRound_le (q : ℚ) : (pyRound q : ℚ) ≤ q + 1/2 := by
  have hf := Int.floor_le q
  have hf' := Int.lt_floor_add_one q
  unfold pyRound
  split_ifs with h1 h2 h3 <;> push_cast <;> linarith

theorem le_pyRound (q : ℚ) : q - 1/2 ≤ (pyRound q : ℚ) := by
  have hf := Int.floor_le q
  have hf' := Int.lt_floor_add_one q
  unfold pyRound
  split_ifs with h1 h2 h3 <;> push_cast <;> linarith

theorem pyRound_intCast (n : ℤ) : pyRound (n : ℚ) = n := by
  unfold pyRound
  simp

theorem pyRound_zero : pyRound 0 = 0 := by
  simpa using pyRound_intCast 0

/-- `pyRound q` is nonnegative whenever `q` is. -/
theorem pyRound_nonneg {q : ℚ} (h : 0 ≤ q) : 0 ≤ pyRound q := by
  have := le_pyRound q
  have h2 : (-1 : ℚ) < (pyRound q : ℚ) := by linarith
  have h3 : (-1 : ℤ) < pyRound q := by exact_mod_cast h2
  omega

/-- `pyRound q ≤ n` whenever `q ≤ n` for an integer bound `n`. -/
theorem pyRound_le_of_le {q : ℚ} {n : ℤ} (h : q ≤ (n : ℚ)) : pyRound q ≤ n := by
  have h1 := pyRound_le q
  have h2 : (pyRound q : ℚ) < (n : ℚ) + 1 := by linarith
  exact_mod_cast Int.lt_add_one_iff.mp (by exact_mod_cast h2)

/-! ### Sine Interpolator (`tides.sine_interp`, tides.py lines 21-95) -/

/-- Sample `i` of `np.linspace a b n` (both endpoints included,
`n` samples, step `(b-a)/(n-1)`). -/
noncomputable def linspace (a b : ℝ) (n : ℕ) (i : ℕ) : ℝ :=
  a + (b - a) * i / ((n : ℝ) - 1)

/-- Shallow embedding of `tides.sine_interp`.  The source asserts
`resolution > 2`; that precondition appears as a hypothesis of the
theorems below.  The postcondition asserts of the source (endpoint
reproduction to 8 decimals) are the content of theorem C1. -/
noncomputable def sine_interp (height1 height2 : ℝ) (resolution : ℕ)
    (remove_end : Bool) : List ℝ :=
  let h1 := height1
  let h2 := height2
  let amp := (max h1 h2 - min h1 h2) / 2
  let bump := max h1 h2 - amp
  let xtmp : ℕ → ℝ := fun i =>
    if h1 < h2 then linspace (-(π/2)) (π/2) resolution i
    else linspace (π/2) (3/2 * π) resolution i
  let y := List.ofFn (fun i : Fin resolution => amp * Real.sin (xtmp i) + bump)
  if remove_end then y.take (resolution - 1) else y

theorem sine_interp_length (h1 h2 : ℝ) (res : ℕ) :
    (sine_interp h1 h2 res false).length = res := by
  simp [sine_interp]

theorem sine_interp_drop_length (h1 h2 : ℝ) (res : ℕ) :
    (sine_interp h1 h2 res true).length = min (res - 1) res := by
  simp [sine_interp]

theorem sine_interp_getD (h1 h2 : ℝ) (res : ℕ) (i : ℕ) (hi : i < res) :
    (sine_interp h1 h2 res false).getD i 0 =
      (max h1 h2 - min h1 h2) / 2 *
        Real.sin (if h1 < h2 then linspace (-(π/2)) (π/2) res i
                  else linspace (π/2) (3/2 * π) res i) +
      (max h1 h2 - (max h1 h2 - min h1 h2) / 2) := by
  have hlen : i < (sine_interp h1 h2 res false).length := by
    rwa [sine_interp_length]
  rw [List.getD_eq_getElem _ _ hlen]
  simp [sine_interp]

theorem linspace_up (res : ℕ) (k : ℕ) :
    linspace (-(π/2)) (π/2) res k = -(π/2) + π * k / ((res : ℝ) - 1) := by
  unfold linspace
  ring

theorem linspace_down (res : ℕ) (k : ℕ) :
    linspace (π/2) (3/2 * π) res k = π * k / ((res : ℝ) - 1) + π/2 := by
  unfold linspace
  ring

/-- C1: for `resolution > 2`, `sine_interp h1 h2 resolution` starts at `h1`,
ends at `h2` (exactly, in the idealized real-number model, hence to any
decimal tolerance), and is monotone non-decreasing when `h1 < h2`,
monotone non-increasing when `h1 > h2`, and constantly `h1` when
`h1 = h2`. -/
theorem sine_interp_endpoints_mono (h1 h2 : ℝ) (res : ℕ) (hres : 2 < res) :
    (sine_interp h1 h2 res false).getD 0 0 = h1 ∧
    (sine_interp h1 h2 res false).getD (res - 1) 0 = h2 ∧
    (h1 < h2 → ∀ i j : ℕ, i ≤ j → j < res →
      (sine_interp h1 h2 res false).getD i 0 ≤ (sine_interp h1 h2 res false).getD j 0) ∧
    (h2 < h1 → ∀ i j : ℕ, i ≤ j → j < res →
      (sine_interp h1 h2 res false).getD j 0 ≤ (sine_interp h1 h2 res false).getD i 0) ∧
    (h1 = h2 → ∀ i : ℕ, i < res →
      (sine_interp h1 h2 res false).getD i 0 = h1) := by
  have hres3 : (3 : ℝ) ≤ (res : ℝ) := by exact_mod_cast hres
  have hden : (0 : ℝ) < (res : ℝ) - 1 := by linarith
  have hcast : ((res - 1 : ℕ) : ℝ) = (res : ℝ) - 1 := by
    have h1le : 1 ≤ res := by omega
    push_cast [h1le]
    ring
  refine ⟨?_, ?_, ?_, ?_, ?_⟩
  · -- first sample is h1
    rw [sine_interp_getD h1 h2 res 0 (by omega)]
    by_cases hlt : h1 < h2
    · rw [if_pos hlt]
      have hx : linspace (-(π/2)) (π/2) res 0 = -(π/2) := by
        rw [linspace_up]
        simp
      rw [hx, Real.sin_neg, Real.sin_pi_div_two,
        max_eq_right hlt.le, min_eq_left hlt.le]
      ring
    · rw [if_neg hlt]
      have hx : linspace (π/2) (3/2 * π) res 0 = π/2 := by
        rw [linspace_down]
        simp
      rw [hx, Real.sin_pi_div_two,
        max_eq_left (not_lt.mp hlt), min_eq_right (not_lt.mp hlt)]
      ring
  · -- last sample is h2
    rw [sine_interp_getD h1 h2 res (res - 1) (by omega)]
    by_cases hlt : h1 < h2
    · rw [if_pos hlt]
      have hx : linspace (-(π/2)) (π/2) res (res - 1) = π/2 := by
        rw [linspace_up, hcast, mul_div_assoc, div_self hden.ne', mul_one]
        ring
      rw [hx, Real.sin_pi_div_two, max_eq_right hlt.le, min_eq_left hlt.le]
      ring
    · rw [if_neg hlt]
      have hx : linspace (π/2) (3/2 * π) res (res - 1) = π/2 + π := by
        rw [linspace_down, hcast, mul_div_assoc, div_self hden.ne', mul_one]
        ring
      have hsin : Real.sin (π/2 + π) = -1 := by
        rw [Real.sin_add_pi, Real.sin_pi_div_two]
      rw [hx, hsin, max_eq_left (not_lt.mp hlt), min_eq_right (not_lt.mp hlt)]
      ring
  · -- monotone non-decreasing when h1 < h2
    intro hlt i j hij hj
    rw [sine_interp_getD h1 h2 res i (lt_of_le_of_lt hij hj),
      sine_interp_getD h1 h2 res j hj, if_pos hlt, if_pos hlt]
    have hamp : (0 : ℝ) ≤ (max h1 h2 - min h1 h2) / 2 := by
      have := min_le_max (a := h1) (b := h2)
      linarith
    apply add_le_add_right
    apply mul_le_mul_of_nonneg_left _ hamp
    rw [linspace_up, linspace_up]
    have hjr : (j : ℝ) ≤ (res : ℝ) - 1 := by
      have : (j : ℝ) + 1 ≤ (res : ℝ) := by exact_mod_cast hj
      linarith
    apply Real.sin_le_sin_of_le_of_le_pi_div_two
    · have : (0 : ℝ) ≤ π * i / ((res : ℝ) - 1) := by positivity
      linarith
    · have : π * j / ((res : ℝ) - 1) ≤ π := by
        rw [mul_div_assoc]
        calc π * ((j : ℝ) / ((res : ℝ) - 1)) ≤ π * 1 := by
              apply mul_le_mul_of_nonneg_left _ Real.pi_pos.le
              exact (div_le_one hden).mpr hjr
          _ = π := mul_one π
      linarith
    · gcongr
  · -- monotone non-increasing when h2 < h1
    intro hlt i j hij hj
    have hnlt : ¬ h1 < h2 := not_lt.mpr hlt.le
    rw [sine_interp_getD h1 h2 res i (lt_of_le_of_lt hij hj),
      sine_interp_getD h1 h2 res j hj, if_neg hnlt, if_neg hnlt]
    have hamp : (0 : ℝ) ≤ (max h1 h2 - min h1 h2) / 2 := by
      have := min_le_max (a := h1) (b := h2)
      linarith
    apply add_le_add_right
    apply mul_le_mul_of_nonneg_left _ hamp
    rw [linspace_down, linspace_down, Real.sin_add_pi_div_two,
      Real.sin_add_pi_div_two]
    have hjr : (j : ℝ) ≤ (res : ℝ) - 1 := by
      have : (j : ℝ) + 1 ≤ (res : ℝ) := by exact_mod_cast hj
      linarith
    apply Real.cos_le_cos_of_nonneg_of_le_pi
    · positivity
    · rw [mul_div_assoc]
      calc π * ((j : ℝ) / ((res : ℝ) - 1)) ≤ π * 1 := by
            apply mul_le_mul_of_nonneg_left _ Real.pi_pos.le
            exact (div_le_one hden).mpr hjr
        _ = π := mul_one π
    · gcongr
  · -- constant when h1 = h2
    intro heq i hi
    subst heq
    rw [sine_interp_getD h1 h1 res i hi]
    simp

theorem sine_interp_endpoints_mono_witness :
    2 < 3 ∧
    ((sine_interp 0 1 3 false).getD 0 0 = 0 ∧
     (sine_interp 0 1 3 false).getD (3 - 1) 0 = 1 ∧
     ((0 : ℝ) < 1 → ∀ i j : ℕ, i ≤ j → j < 3 →
       (sine_interp 0 1 3 false).getD i 0 ≤ (sine_interp 0 1 3 false).getD j 0) ∧
     ((1 : ℝ) < 0 → ∀ i j : ℕ, i ≤ j → j < 3 →
       (sine_interp 0 1 3 false).getD j 0 ≤ (sine_interp 0 1 3 false).getD i 0) ∧
     ((0 : ℝ) = 1 → ∀ i : ℕ, i < 3 →
       (sine_interp 0 1 3 false).getD i 0 = 0)) :=
  ⟨by norm_num, sine_interp_endpoints_mono 0 1 3 (by norm_num)⟩

/-! ### Tide curve densification (`tides.build_all_tides`, tides.py 223-280) -/

/-- Python exception kinds observable in the embedded code. -/
inductive PyErr
  | assertionError
  | indexError
  | zeroDivisionError
deriving DecidableEq

/-- `itertools`-style `pairwise` helper from tides.py:
`[s0,s1,s2,...] -> [(s0,s1),(s1,s2),...]`. -/
def pairwiseList {α : Type} (l : List α) : List (α × α) := l.zip l.tail

/-- Rational model of `np.arange a b step`: samples `a, a+step, ...`
strictly before `b`; sample count `⌈(b-a)/step⌉` (clamped at 0), matching
numpy for positive and negative steps.  `none` models the
`ZeroDivisionError` numpy raises for a zero step. -/
def pyArange (a b step : ℚ) : Option (List ℚ) :=
  if step = 0 then none
  else some ((List.range (⌈(b - a) / step⌉).toNat).map
    (fun i : ℕ => a + (i : ℚ) * step))

/-- The body of the magnitude loop of `build_all_tides`: sine-interpolate
one consecutive pair of extremum magnitudes with the end removed, with
the source's `assert(len(interps) == (resolution - 1))`. -/
noncomputable def tideMagSeg (resolution : ℕ) (p : ℝ × ℝ) :
    Except PyErr (List ℝ) :=
  let interps := sine_interp p.1 p.2 resolution true
  if interps.length = resolution - 1 then pure interps
  else throw PyErr.assertionError

/-- The body of the timestamp loop of `build_all_tides`: evenly spaced
samples between one consecutive pair of extremum instants, end removed
by `interv[:resolution-1]`, with the source's length assert. -/
def tideTimeSeg (resolution : ℕ) (p : ℚ × ℚ) : Except PyErr (List ℚ) :=
  -- step = np.timedelta64((b - a) / (resolution-1))
  match pyArange p.1 p.2 ((p.2 - p.1) / ((resolution : ℚ) - 1)) with
  | none => throw PyErr.zeroDivisionError
  | some interv =>
    if (interv.take (resolution - 1)).length = resolution - 1 then
      pure (interv.take (resolution - 1))
    else throw PyErr.assertionError

/-- Shallow embedding of `tides.build_all_tides`.  The input DataFrame is
modelled as the list of its rows `(timestamp, magnitude)`: timestamps are
UTC instants in days (`ℚ`, idealizing the microsecond datetime grid),
magnitudes are idealized floats (`ℝ`).  Returns the densified series as a
list of `(timestamp, magnitude)` rows, or the Python exception the source
raises. -/
noncomputable def build_all_tides (raw_tides : List (ℚ × ℝ)) (resolution : ℕ) :
    Except PyErr (List (ℚ × ℝ)) := do
  -- assert(resolution > 2)
  if resolution ≤ 2 then throw PyErr.assertionError
  let raw_values := raw_tides.map Prod.snd
  -- magnitude loop: sine-interpolate each consecutive pair, dropping ends
  let tideSegs ← (pairwiseList raw_values).mapM (tideMagSeg resolution)
  -- add on the last tide value: `raw_values[-1]` is IndexError when empty
  let some last_value := raw_values.getLast? | throw PyErr.indexError
  let alltides := tideSegs.flatten ++ [last_value]
  -- timestamp loop: evenly spaced samples between consecutive index pairs
  let timeSegs ← (pairwiseList (raw_tides.map Prod.fst)).mapM
      (tideTimeSeg resolution)
  let tidetimes := timeSegs.flatten
  -- `raw_tides.index[len(raw_tides.index) - 1]`
  let some last_row := raw_tides.getLast? | throw PyErr.indexError
  -- assert(np.dtype(tidetimes[1]) == np.dtype(last_one)): IndexError
  -- when the flattened time grid has fewer than two samples
  if tidetimes.length < 2 then throw PyErr.indexError
  let tidetimes := tidetimes ++ [last_row.1]
  -- assert(len(tidetimes) == len(alltides)); pd.Series(alltides, tidetimes)
  if tidetimes.length = alltides.length then
    pure (tidetimes.zip alltides)
  else throw PyErr.assertionError

theorem pairwiseList_length {α : Type} (l : List α) :
    (pairwiseList l).length = l.length - 1 := by
  simp [pairwiseList]

theorem pairwiseList_rel {α : Type} {R : α → α → Prop} :
    ∀ {l : List α}, List.Chain' R l → ∀ p ∈ pairwiseList l, R p.1 p.2 := by
  intro l
  induction l with
  | nil => simp [pairwiseList]
  | cons a t ih =>
    cases t with
    | nil => simp [pairwiseList]
    | cons b t2 =>
      intro h p hp
      rw [List.chain'_cons] at h
      have hsplit : pairwiseList (a :: b :: t2) = (a, b) :: pairwiseList (b :: t2) := rfl
      rw [hsplit, List.mem_cons] at hp
      rcases hp with h1 | h2
      · subst h1
        exact h.1
      · exact ih h.2 p h2

theorem mapM_except_eq_pure {ε α β : Type} (f : α → Except ε β) (g : α → β) :
    ∀ (l : List α), (∀ x ∈ l, f x = pure (g x)) → l.mapM f = pure (l.map g) := by
  intro l
  induction l with
  | nil => intro _; rfl
  | cons a t ih =>
    intro h
    rw [List.mapM_cons, h a (List.mem_cons_self a t),
      ih (fun x hx => h x (List.mem_cons_of_mem a hx))]
    rfl

theorem flatten_length_const {α : Type} (n : ℕ) :
    ∀ (L : List (List α)), (∀ s ∈ L, s.length = n) →
      L.flatten.length = L.length * n := by
  intro L
  induction L with
  | nil => simp
  | cons s t ih =>
    intro h
    have hs := h s (List.mem_cons_self s t)
    have ht := ih (fun x hx => h x (List.mem_cons_of_mem s hx))
    simp only [List.flatten_cons, List.length_append, List.length_cons, hs, ht]
    ring

/-- C10: with fewer than two extremum rows, `build_all_tides` raises an
IndexError (an out-of-range index access) before returning, and no
series is produced. -/
theorem build_all_tides_needs_two_rows (raw_tides : List (ℚ × ℝ))
    (resolution : ℕ) (hres : 2 < resolution) (hlen : raw_tides.length < 2) :
    build_all_tides raw_tides resolution = .error PyErr.indexError := by
  have hr2 : ¬ resolution ≤ 2 := by omega
  match raw_tides, hlen with
  | [], _ =>
    simp only [build_all_tides, pairwiseList, hr2, List.mapM.loop, if_false,
      List.map_nil, List.tail_nil, List.zip_nil_left, ite_false]
    rfl
  | [x], _ =>
    simp only [build_all_tides, pairwiseList, hr2, List.mapM.loop, if_false,
      List.map_cons, List.map_nil, List.tail_cons, List.zip_nil_right, ite_false]
    rfl

theorem build_all_tides_needs_two_rows_witness :
    2 < 3 ∧ ([((0 : ℚ), (0 : ℝ))].length < 2) ∧
    build_all_tides [((0 : ℚ), (0 : ℝ))] 3 = .error PyErr.indexError :=
  ⟨by norm_num, by norm_num,
    build_all_tides_needs_two_rows [((0 : ℚ), (0 : ℝ))] 3 (by norm_num) (by norm_num)⟩

theorem tideMagSeg_ok (r : ℕ) (hr : 2 < r) (p : ℝ × ℝ) :
    tideMagSeg r p = pure (sine_interp p.1 p.2 r true) := by
  have h : (sine_interp p.1 p.2 r true).length = r - 1 := by
    rw [sine_interp_drop_length]
    omega
  simp [tideMagSeg, h]

theorem tideTimeSeg_ok (r : ℕ) (hr : 2 < r) (p : ℚ × ℚ) (hlt : p.1 < p.2) :
    tideTimeSeg r p = pure ((List.range (r - 1)).map
      (fun i : ℕ => p.1 + (i : ℚ) * ((p.2 - p.1) / ((r : ℚ) - 1)))) := by
  have hrq : (0 : ℚ) < (r : ℚ) - 1 := by
    have : (3 : ℚ) ≤ (r : ℚ) := by exact_mod_cast hr
    linarith
  have hd : (0 : ℚ) < p.2 - p.1 := by linarith
  have hstep : (p.2 - p.1) / ((r : ℚ) - 1) ≠ 0 := (div_pos hd hrq).ne'
  have hceil : ⌈(p.2 - p.1) / ((p.2 - p.1) / ((r : ℚ) - 1))⌉ = (r : ℤ) - 1 := by
    have hcount : (p.2 - p.1) / ((p.2 - p.1) / ((r : ℚ) - 1)) = (r : ℚ) - 1 := by
      field_simp
    rw [hcount]
    have hcast : ((r : ℚ) - 1) = (((r : ℤ) - 1 : ℤ) : ℚ) := by push_cast; ring
    rw [hcast, Int.ceil_intCast]
  have htn : (⌈(p.2 - p.1) / ((p.2 - p.1) / ((r : ℚ) - 1))⌉).toNat = r - 1 := by
    rw [hceil]
    omega
  unfold tideTimeSeg pyArange
  rw [if_neg hstep]
  simp only [htn]
  have hlen : ((List.range (r - 1)).map
      (fun i : ℕ => p.1 + (i : ℚ) * ((p.2 - p.1) / ((r : ℚ) - 1)))).length = r - 1 := by
    simp
  rw [List.take_of_length_le (le_of_eq hlen), if_pos hlen]

/-- C5: densifying `N ≥ 2` chronologically sorted tide extrema with
resolution `r > 2` (each segment sine-interpolated with the last sample
dropped, the final extremum appended once) succeeds and yields a series
of length exactly `(N-1)*(r-1) + 1`. -/
theorem build_all_tides_series_length (raw : List (ℚ × ℝ)) (r : ℕ)
    (hr : 2 < r) (hN : 2 ≤ raw.length)
    (hsort : List.Chain' (· < ·) (raw.map Prod.fst)) :
    ∃ s, build_all_tides raw r = .ok s ∧
      s.length = (raw.length - 1) * (r - 1) + 1 := by
  have hr2 : ¬ r ≤ 2 := by omega
  have hne : raw ≠ [] := by
    intro h
    rw [h] at hN
    simp at hN
  obtain ⟨lastRow, hlastRow⟩ : ∃ y, raw.getLast? = some y := by
    cases h : raw.getLast? with
    | none => exact absurd (List.getLast?_eq_none_iff.mp h) hne
    | some y => exact ⟨y, rfl⟩
  have hlastVal : (raw.map Prod.snd).getLast? = some lastRow.2 := by
    rw [List.getLast?_map, hlastRow]
    rfl
  have hmag : (pairwiseList (raw.map Prod.snd)).mapM (tideMagSeg r)
      = pure ((pairwiseList (raw.map Prod.snd)).map
          (fun p => sine_interp p.1 p.2 r true)) :=
    mapM_except_eq_pure _ _ _ (fun p _ => tideMagSeg_ok r hr p)
  have htime : (pairwiseList (raw.map Prod.fst)).mapM (tideTimeSeg r)
      = pure ((pairwiseList (raw.map Prod.fst)).map
          (fun p => (List.range (r - 1)).map
            (fun i : ℕ => p.1 + (i : ℚ) * ((p.2 - p.1) / ((r : ℚ) - 1))))) := by
    apply mapM_except_eq_pure
    intro p hp
    exact tideTimeSeg_ok r hr p (pairwiseList_rel hsort p hp)
  have hmagLen : ((pairwiseList (raw.map Prod.snd)).map
      (fun p => sine_interp p.1 p.2 r true)).flatten.length
      = (raw.length - 1) * (r - 1) := by
    rw [flatten_length_const (r - 1)]
    · rw [List.length_map, pairwiseList_length, List.length_map]
    · intro s hs
      obtain ⟨p, hp, rfl⟩ := List.mem_map.mp hs
      rw [sine_interp_drop_length]
      omega
  have htimeLen : ((pairwiseList (raw.map Prod.fst)).map
      (fun p => (List.range (r - 1)).map
        (fun i : ℕ => p.1 + (i : ℚ) * ((p.2 - p.1) / ((r : ℚ) - 1))))).flatten.length
      = (raw.length - 1) * (r - 1) := by
    rw [flatten_length_const (r - 1)]
    · rw [List.length_map, pairwiseList_length, List.length_map]
    · intro s hs
      obtain ⟨p, hp, rfl⟩ := List.mem_map.mp hs
      simp
  have hge : 2 ≤ (raw.length - 1) * (r - 1) := by
    calc 2 = 1 * 2 := by ring
      _ ≤ (raw.length - 1) * (r - 1) := Nat.mul_le_mul (by omega) (by omega)
  refine ⟨(((pairwiseList (raw.map Prod.fst)).map
      (fun p => (List.range (r - 1)).map
        (fun i : ℕ => p.1 + (i : ℚ) * ((p.2 - p.1) / ((r : ℚ) - 1))))).flatten
      ++ [lastRow.1]).zip
    (((pairwiseList (raw.map Prod.snd)).map
      (fun p => sine_interp p.1 p.2 r true)).flatten ++ [lastRow.2]), ?_, ?_⟩
  · simp only [build_all_tides, hr2, ite_false, hmag, htime, hlastVal, hlastRow,
      pure_bind]
    rw [if_neg (by rw [htimeLen]; omega)]
    rw [if_pos (by simp only [List.length_append, htimeLen, hmagLen,
      List.length_cons, List.length_nil])]
    rfl
  · rw [List.length_zip, List.length_append, List.length_append, hmagLen,
      htimeLen]
    simp

theorem build_all_tides_series_length_witness :
    2 < 3 ∧ 2 ≤ ([((0 : ℚ), (0 : ℝ)), ((1 : ℚ), (0 : ℝ))]).length ∧
    List.Chain' (· < ·)
      (([((0 : ℚ), (0 : ℝ)), ((1 : ℚ), (0 : ℝ))]).map Prod.fst) ∧
    ∃ s, build_all_tides [((0 : ℚ), (0 : ℝ)), ((1 : ℚ), (0 : ℝ))] 3 = .ok s ∧
      s.length
        = (([((0 : ℚ), (0 : ℝ)), ((1 : ℚ), (0 : ℝ))]).length - 1) * (3 - 1) + 1 :=
  ⟨by norm_num, by norm_num, by norm_num,
    build_all_tides_series_length _ 3 (by norm_num) (by norm_num) (by norm_num)⟩

/-! ### Timezone-Year Resolver (`astro.utc_year_bounds`, astro.py 44-104) -/

/-- Resolver failure taxonomy (spec section 7): `invalidTimezone` models
`pytz.UnknownTimeZoneError`; `malformedOffset` models the
`AssertionError`/`ValueError` raised inside `_parse_UTC_offset`. -/
inductive ResolverError
  | invalidTimezone
  | malformedOffset
deriving DecidableEq

/-- Whitespace as stripped by Python's `int(str)` conversion. -/
def isPySpace (c : Char) : Bool := c.isWhitespace

/-- Strip leading and trailing whitespace (Python `int` ignores it). -/
def trimChars (s : List Char) : List Char :=
  ((s.dropWhile isPySpace).reverse.dropWhile isPySpace).reverse

/-- Digit body accepted by Python's `int` after sign stripping: nonempty,
digits possibly separated by single interior underscores. -/
def validIntBody (s : List Char) : Bool :=
  !s.isEmpty && s.all (fun c => c.isDigit || c == '_') &&
  !(s.head? == some '_') && !(s.getLast? == some '_') &&
  (pairwiseList s).all (fun p => !(p.1 == '_' && p.2 == '_'))

/-- Decimal value of a digit string. -/
def digitsVal (s : List Char) : ℤ :=
  s.foldl (fun n c => 10 * n + ((c.toNat : ℤ) - 48)) 0

def pyIntAux (sign : ℤ) (body : List Char) : Option ℤ :=
  if validIntBody body then
    some (sign * digitsVal (body.filter (fun c => c ≠ '_')))
  else none

/-- Python's `int(string)`: optional surrounding whitespace, an optional
sign, then digits (single interior underscores allowed).  `none` models
the `ValueError` raised on any other input. -/
def pyInt (s : List Char) : Option ℤ :=
  if (trimChars s).head? = some '+' then pyIntAux 1 (trimChars s).tail
  else if (trimChars s).head? = some '-' then pyIntAux (-1) (trimChars s).tail
  else pyIntAux 1 (trimChars s)

/-- Shallow embedding of `_parse_UTC_offset` (astro.py 75-90): checks
`len(raw_offset) == 5` (assert), reads the sign character (ValueError on
anything else), converts the `[1:3]` and `[3:]` slices with `int`, and
returns the offset as fractional days plus the `behind` flag.  All three
failure modes are `malformedOffset`. -/
def parse_hhmm (raw_offset : List Char) (behind : Bool) :
    Except ResolverError (ℚ × Bool) :=
  -- hour = int(raw_offset[1:3]); minute = int(raw_offset[3:])
  match pyInt ((raw_offset.drop 1).take 2), pyInt (raw_offset.drop 3) with
  | some hour, some minute =>
    .ok ((((hour : ℚ) + (minute : ℚ) / 60) / 24 : ℚ), behind)
  | _, _ => .error ResolverError.malformedOffset

def parse_UTC_offset (raw_offset : List Char) :
    Except ResolverError (ℚ × Bool) :=
  -- assert(len(raw_offset) == 5)
  if raw_offset.length ≠ 5 then .error ResolverError.malformedOffset
  -- sign character: '+' = ahead of UTC, '-' = behind, else ValueError
  else if raw_offset.head? = some '+' then parse_hhmm raw_offset false
  else if raw_offset.head? = some '-' then parse_hhmm raw_offset true
  else .error ResolverError.malformedOffset

/-- `_make_offset_ephemDates` (astro.py 92-97): shift the naive local
instant by the offset to obtain UTC. -/
def make_offset_ephemDates (date_time : ℚ) (days : ℚ) (behind : Bool) : ℚ :=
  if behind then date_time + days else date_time - days

/-- Days in the proleptic Gregorian calendar before year `y` (the
calendar `datetime.datetime` implements). -/
def daysBeforeYear (y : ℤ) : ℤ :=
  365 * (y - 1) + (y - 1) / 4 - (y - 1) / 100 + (y - 1) / 400

/-- Number of days of calendar year `y`. -/
def daysInYear (y : ℤ) : ℤ := daysBeforeYear (y + 1) - daysBeforeYear y

/-- Naive local midnight Jan 1 of year `y`
(`datetime.datetime(int(year), 1, 1)`), in days. -/
def beginNaive (y : ℤ) : ℚ := (daysBeforeYear y : ℚ)

/-- Naive local Dec 31 23:59:59 of year `y`
(`datetime.datetime(int(year), 12, 31, 23, 59, 59)`): one second before
midnight Jan 1 of year `y+1`. -/
def endNaive (y : ℤ) : ℚ := (daysBeforeYear (y + 1) : ℚ) - 1/86400

/-- Shallow embedding of `astro.utc_year_bounds`.  The pytz database is
the external oracle: a recognized timezone name supplies the pair of
localized `strftime('%z')` offset strings for naive local Jan 1
00:00:00 and Dec 31 23:59:59 of the year; `none` models an unrecognized
name (`pytz.UnknownTimeZoneError`). -/
def utc_year_bounds (tzOffsets : Option (List Char × List Char)) (year : ℤ) :
    Except ResolverError (ℚ × ℚ) := do
  let some (begin_raw_offset, end_raw_offset) := tzOffsets
    | throw ResolverError.invalidTimezone
  let (begin_days, begin_behind) ← parse_UTC_offset begin_raw_offset
  let begin_result :=
    make_offset_ephemDates (beginNaive year) begin_days begin_behind
  let (end_days, end_behind) ← parse_UTC_offset end_raw_offset
  let end_result :=
    make_offset_ephemDates (endNaive year) end_days end_behind
  pure (begin_result, end_result)

/-- The five-character `±HHMM` shape of a raw UTC offset string. -/
def WellFormedOffset (s : List Char) : Prop :=
  ∃ c d1 d2 d3 d4, s = [c, d1, d2, d3, d4] ∧ (c = '+' ∨ c = '-') ∧
    d1.isDigit = true ∧ d2.isDigit = true ∧ d3.isDigit = true ∧
    d4.isDigit = true

/-- The signed UTC offset in fractional days (positive = ahead of UTC)
denoted by a well-formed `±HHMM` string (0 on other shapes). -/
def signedOffsetDays (s : List Char) : ℚ :=
  match s with
  | [c, d1, d2, d3, d4] =>
    if c = '-' then
      -(((10 * ((d1.toNat : ℚ) - 48) + ((d2.toNat : ℚ) - 48)) +
         (10 * ((d3.toNat : ℚ) - 48) + ((d4.toNat : ℚ) - 48)) / 60) / 24)
    else
      ((10 * ((d1.toNat : ℚ) - 48) + ((d2.toNat : ℚ) - 48)) +
       (10 * ((d3.toNat : ℚ) - 48) + ((d4.toNat : ℚ) - 48)) / 60) / 24
  | _ => 0

theorem isDigit_ne {c d : Char} (h : c.isDigit = true)
    (hd : d.isDigit = false) : c ≠ d := by
  intro heq
  rw [heq, hd] at h
  exact Bool.false_ne_true h

theorem isDigit_not_whitespace {c : Char} (h : c.isDigit = true) :
    c.isWhitespace = false := by
  have h1 : c ≠ ' ' := isDigit_ne h (by decide)
  have h2 : c ≠ '\t' := isDigit_ne h (by decide)
  have h3 : c ≠ '\r' := isDigit_ne h (by decide)
  have h4 : c ≠ '\n' := isDigit_ne h (by decide)
  simp [Char.isWhitespace, h1, h2, h3, h4]

theorem trimChars_two_digits {a b : Char} (ha : a.isDigit = true)
    (hb : b.isDigit = true) : trimChars [a, b] = [a, b] := by
  simp [trimChars, List.dropWhile, isPySpace,
    isDigit_not_whitespace ha, isDigit_not_whitespace hb]

/-- Python's `int` on a two-digit string. -/
theorem pyInt_two_digits {a b : Char} (ha : a.isDigit = true)
    (hb : b.isDigit = true) :
    pyInt [a, b] = some (10 * ((a.toNat : ℤ) - 48) + ((b.toNat : ℤ) - 48)) := by
  have hna : a ≠ '+' := isDigit_ne ha (by decide)
  have hnb : a ≠ '-' := isDigit_ne ha (by decide)
  have hua : a ≠ '_' := isDigit_ne ha (by decide)
  have hub : b ≠ '_' := isDigit_ne hb (by decide)
  have ht := trimChars_two_digits ha hb
  unfold pyInt
  rw [ht]
  rw [if_neg (by simp [hna]), if_neg (by simp [hnb])]
  have hv : validIntBody [a, b] = true := by
    simp [validIntBody, pairwiseList, ha, hb, hua, hub]
  unfold pyIntAux
  rw [if_pos hv]
  have hfa : [a, b].filter (fun c => c ≠ '_') = [a, b] := by
    simp [List.filter, hua, hub]
  rw [hfa]
  simp [digitsVal]

theorem isDigit_toNat_bounds {c : Char} (h : c.isDigit = true) :
    48 ≤ (c.toNat : ℤ) ∧ (c.toNat : ℤ) ≤ 57 := by
  simp only [Char.isDigit, Bool.and_eq_true, decide_eq_true_eq] at h
  obtain ⟨ha, hb⟩ := h
  have ha' : (48 : ℕ) ≤ c.val.toNat := by
    have := UInt32.le_def.mp ha
    simpa using this
  have hb' : c.val.toNat ≤ 57 := by
    have := UInt32.le_def.mp hb
    simpa using this
  unfold Char.toNat
  omega

theorem parse_UTC_offset_wf {s : List Char} (h : WellFormedOffset s) :
    ∃ days behind, parse_UTC_offset s = .ok (days, behind) ∧
      (∀ t : ℚ, make_offset_ephemDates t days behind
        = t - signedOffsetDays s) ∧
      -5 ≤ signedOffsetDays s ∧ signedOffsetDays s ≤ 5 := by
  obtain ⟨c, d1, d2, d3, d4, rfl, hc, h1, h2, h3, h4⟩ := h
  obtain ⟨b1l, b1u⟩ := isDigit_toNat_bounds h1
  obtain ⟨b2l, b2u⟩ := isDigit_toNat_bounds h2
  obtain ⟨b3l, b3u⟩ := isDigit_toNat_bounds h3
  obtain ⟨b4l, b4u⟩ := isDigit_toNat_bounds h4
  have q1l : (48 : ℚ) ≤ (d1.toNat : ℚ) := by exact_mod_cast b1l
  have q1u : (d1.toNat : ℚ) ≤ 57 := by exact_mod_cast b1u
  have q2l : (48 : ℚ) ≤ (d2.toNat : ℚ) := by exact_mod_cast b2l
  have q2u : (d2.toNat : ℚ) ≤ 57 := by exact_mod_cast b2u
  have q3l : (48 : ℚ) ≤ (d3.toNat : ℚ) := by exact_mod_cast b3l
  have q3u : (d3.toNat : ℚ) ≤ 57 := by exact_mod_cast b3u
  have q4l : (48 : ℚ) ≤ (d4.toNat : ℚ) := by exact_mod_cast b4l
  have q4u : (d4.toNat : ℚ) ≤ 57 := by exact_mod_cast b4u
  rcases hc with rfl | rfl
  · refine ⟨((((10 * ((d1.toNat : ℤ) - 48) + ((d2.toNat : ℤ) - 48)) : ℤ) : ℚ)
        + (((10 * ((d3.toNat : ℤ) - 48) + ((d4.toNat : ℤ) - 48)) : ℤ) : ℚ) / 60)
        / 24, false, ?_, ?_, ?_, ?_⟩
    · simp [parse_UTC_offset, parse_hhmm, pyInt_two_digits h1 h2,
        pyInt_two_digits h3 h4]
    · intro t
      simp only [make_offset_ephemDates, signedOffsetDays, Bool.false_eq_true,
        if_false]
      rw [if_neg (by decide)]
      push_cast
      ring
    · simp only [signedOffsetDays]
      rw [if_neg (by decide)]
      linarith
    · simp only [signedOffsetDays]
      rw [if_neg (by decide)]
      linarith
  · refine ⟨((((10 * ((d1.toNat : ℤ) - 48) + ((d2.toNat : ℤ) - 48)) : ℤ) : ℚ)
        + (((10 * ((d3.toNat : ℤ) - 48) + ((d4.toNat : ℤ) - 48)) : ℤ) : ℚ) / 60)
        / 24, true, ?_, ?_, ?_, ?_⟩
    · simp [parse_UTC_offset, parse_hhmm, pyInt_two_digits h1 h2,
        pyInt_two_digits h3 h4]
    · intro t
      simp only [make_offset_ephemDates, signedOffsetDays, if_true]
      push_cast
      ring
    · simp only [signedOffsetDays]
      norm_num
      linarith
    · simp only [signedOffsetDays]
      norm_num
      linarith

/-- C2: for every recognized timezone (supplying two well-formed `±HHMM`
offsets) and every year, `utc_year_bounds` returns `start < end` with
`end - start` equal to 365 or 366 days minus one second, adjusted by
exactly the difference between the signed UTC offset at local Jan 1
00:00:00 and the one at local Dec 31 23:59:59. -/
theorem utc_year_bounds_spec (b e : List Char) (year : ℤ)
    (hb : WellFormedOffset b) (he : WellFormedOffset e) :
    ∃ s t, utc_year_bounds (some (b, e)) year = .ok (s, t) ∧ s < t ∧
      t - s = (daysInYear year : ℚ) - 1/86400
        + (signedOffsetDays b - signedOffsetDays e) ∧
      (daysInYear year = 365 ∨ daysInYear year = 366) := by
  obtain ⟨db, bb, hpb, hmb, hbl, hbu⟩ := parse_UTC_offset_wf hb
  obtain ⟨de, be2, hpe, hme, hel, heu⟩ := parse_UTC_offset_wf he
  have h365 : daysInYear year = 365 ∨ daysInYear year = 366 := by
    unfold daysInYear daysBeforeYear
    omega
  have hcast : (daysBeforeYear (year + 1) : ℚ) - (daysBeforeYear year : ℚ)
      = (daysInYear year : ℚ) := by
    unfold daysInYear
    push_cast
    ring
  have h365' : (365 : ℚ) ≤ (daysInYear year : ℚ) := by
    rcases h365 with h | h <;> rw [h] <;> norm_num
  refine ⟨make_offset_ephemDates (beginNaive year) db bb,
    make_offset_ephemDates (endNaive year) de be2, ?_, ?_, ?_, h365⟩
  · simp [utc_year_bounds, hpb, hpe]
    rfl
  · rw [hmb, hme]
    unfold beginNaive endNaive
    linarith
  · rw [hmb, hme]
    unfold beginNaive endNaive
    linarith

theorem utc_year_bounds_spec_witness :
    WellFormedOffset ['+', '0', '8', '0', '0'] ∧
    WellFormedOffset ['-', '0', '7', '0', '0'] ∧
    (∃ s t, utc_year_bounds
        (some (['+', '0', '8', '0', '0'], ['-', '0', '7', '0', '0'])) 2016
        = .ok (s, t) ∧ s < t ∧
      t - s = (daysInYear 2016 : ℚ) - 1/86400
        + (signedOffsetDays ['+', '0', '8', '0', '0']
          - signedOffsetDays ['-', '0', '7', '0', '0']) ∧
      (daysInYear 2016 = 365 ∨ daysInYear 2016 = 366)) :=
  ⟨⟨'+', '0', '8', '0', '0', rfl, Or.inl rfl, by decide, by decide, by decide,
      by decide⟩,
   ⟨'-', '0', '7', '0', '0', rfl, Or.inr rfl, by decide, by decide, by decide,
      by decide⟩,
   utc_year_bounds_spec ['+', '0', '8', '0', '0'] ['-', '0', '7', '0', '0'] 2016
     ⟨'+', '0', '8', '0', '0', rfl, Or.inl rfl, by decide, by decide, by decide,
       by decide⟩
     ⟨'-', '0', '7', '0', '0', rfl, Or.inr rfl, by decide, by decide, by decide,
       by decide⟩⟩

/-- `_parse_UTC_offset` can only fail with the malformed-offset error. -/
theorem parse_UTC_offset_error {s : List Char} {err : ResolverError}
    (h : parse_UTC_offset s = .error err) :
    err = ResolverError.malformedOffset := by
  unfold parse_UTC_offset at h
  split_ifs at h with h5 hp hm
  · exact (Except.error.inj h).symm
  · unfold parse_hhmm at h
    cases hh : pyInt ((s.drop 1).take 2) with
    | none =>
      rw [hh] at h
      exact (Except.error.inj h).symm
    | some hv =>
      cases hm2 : pyInt (s.drop 3) with
      | none =>
        rw [hh, hm2] at h
        exact (Except.error.inj h).symm
      | some mv =>
        rw [hh, hm2] at h
        exact absurd h (by simp)
  · unfold parse_hhmm at h
    cases hh : pyInt ((s.drop 1).take 2) with
    | none =>
      rw [hh] at h
      exact (Except.error.inj h).symm
    | some hv =>
      cases hm2 : pyInt (s.drop 3) with
      | none =>
        rw [hh, hm2] at h
        exact (Except.error.inj h).symm
      | some mv =>
        rw [hh, hm2] at h
        exact absurd h (by simp)
  · exact (Except.error.inj h).symm

theorem Except_ok_bind {e a b : Type} (x : a) (f : a → Except e b) :
    (Except.ok x >>= f) = f x := rfl

/-- C7 (counterexample): the five-character string `+-123` is not of the
`±HHMM` shape, yet for a recognized timezone supplying it the resolver
does not raise the malformed-offset error: Python's `int` accepts the
inner sign, so `utc_year_bounds` returns normally. -/
theorem utc_year_bounds_malformed_not_exact :
    ¬ WellFormedOffset ['+', '-', '1', '2', '3'] ∧
    utc_year_bounds
        (some (['+', '-', '1', '2', '3'], ['+', '0', '0', '0', '0'])) 2016
      ≠ .error ResolverError.malformedOffset := by
  constructor
  · rintro ⟨c, d1, d2, d3, d4, heq, hc, h1, h2, h3, h4⟩
    have : d1 = '-' := by
      have := List.cons.inj heq
      exact (List.cons.inj this.2).1.symm
    rw [this] at h1
    exact absurd h1 (by decide)
  · have hv1 : parse_UTC_offset ['+', '-', '1', '2', '3']
        = .ok ((((-1 : ℤ) : ℚ) + ((23 : ℤ) : ℚ) / 60) / 24, false) := by
      unfold parse_UTC_offset
      rw [if_neg (by decide), if_pos (by decide)]
      unfold parse_hhmm
      rw [(by decide : pyInt (((['+', '-', '1', '2', '3'] : List Char).drop 1).take 2)
            = some (-1)),
        (by decide : pyInt ((['+', '-', '1', '2', '3'] : List Char).drop 3)
            = some 23)]
    have hv2 : parse_UTC_offset ['+', '0', '0', '0', '0']
        = .ok ((((0 : ℤ) : ℚ) + ((0 : ℤ) : ℚ) / 60) / 24, false) := by
      unfold parse_UTC_offset
      rw [if_neg (by decide), if_pos (by decide)]
      unfold parse_hhmm
      rw [(by decide : pyInt (((['+', '0', '0', '0', '0'] : List Char).drop 1).take 2)
            = some 0),
        (by decide : pyInt ((['+', '0', '0', '0', '0'] : List Char).drop 3)
            = some 0)]
    intro h
    simp only [utc_year_bounds, hv1, hv2, Except_ok_bind] at h
    exact Except.noConfusion h

theorem utc_year_bounds_some (b e : List Char) (year : ℤ) :
    utc_year_bounds (some (b, e)) year
      = (parse_UTC_offset b) >>= (fun pb =>
          (parse_UTC_offset e) >>= (fun pe =>
            pure (make_offset_ephemDates (beginNaive year) pb.1 pb.2,
                  make_offset_ephemDates (endNaive year) pe.1 pe.2))) := rfl

theorem Except_error_bind {e a b : Type} (x : e) (f : a → Except e b) :
    (Except.error x >>= f) = Except.error x := rfl

/-- C7 (amended): the resolver fails with `invalidTimezone` exactly when
the timezone name is unrecognized; for a recognized timezone it fails
with `malformedOffset` exactly when `_parse_UTC_offset` rejects one of
the two localized offset strings (length not 5, sign character not `+`
or `-`, or a slice rejected by Python's `int` — `int` also accepts some
non-`±HHMM` five-character strings, see the counterexample); with two
well-formed `±HHMM` offsets it returns normally. -/
theorem utc_year_bounds_error_taxonomy
    (tz : Option (List Char × List Char)) (year : ℤ) :
    (utc_year_bounds tz year = .error ResolverError.invalidTimezone ↔
      tz = none) ∧
    (utc_year_bounds tz year = .error ResolverError.malformedOffset ↔
      ∃ b e, tz = some (b, e) ∧
        (parse_UTC_offset b = .error ResolverError.malformedOffset ∨
         parse_UTC_offset e = .error ResolverError.malformedOffset)) ∧
    (∀ b e, tz = some (b, e) → WellFormedOffset b → WellFormedOffset e →
      ∃ p, utc_year_bounds tz year = .ok p) := by
  cases tz with
  | none =>
    refine ⟨iff_of_true rfl rfl, ?_, ?_⟩
    · constructor
      · intro h
        exact absurd (Except.error.inj h) (by simp)
      · rintro ⟨b, e, h, _⟩
        exact Option.noConfusion h
    · intro b e h
      exact absurd h (by simp)
  | some pair =>
    obtain ⟨b, e⟩ := pair
    refine ⟨?_, ?_, ?_⟩
    · -- never invalidTimezone once the timezone is recognized
      constructor
      · intro h
        cases hb : parse_UTC_offset b with
        | error errb =>
          rw [utc_year_bounds_some, hb, Except_error_bind] at h
          have := parse_UTC_offset_error hb
          rw [this] at h
          exact absurd (Except.error.inj h) (by simp)
        | ok pb =>
          cases he : parse_UTC_offset e with
          | error erre =>
            rw [utc_year_bounds_some, hb, Except_ok_bind, he,
              Except_error_bind] at h
            have := parse_UTC_offset_error he
            rw [this] at h
            exact absurd (Except.error.inj h) (by simp)
          | ok pe =>
            rw [utc_year_bounds_some, hb, Except_ok_bind, he,
              Except_ok_bind] at h
            exact Except.noConfusion h
      · intro h
        exact Option.noConfusion h
    · constructor
      · intro h
        cases hb : parse_UTC_offset b with
        | error errb =>
          exact ⟨b, e, rfl, Or.inl (by rw [hb, parse_UTC_offset_error hb])⟩
        | ok pb =>
          cases he : parse_UTC_offset e with
          | error erre =>
            exact ⟨b, e, rfl, Or.inr (by rw [he, parse_UTC_offset_error he])⟩
          | ok pe =>
            rw [utc_year_bounds_some, hb, Except_ok_bind, he,
              Except_ok_bind] at h
            exact absurd h (fun hc => Except.noConfusion hc)
      · rintro ⟨b', e', heq, hor⟩
        obtain ⟨rfl, rfl⟩ : b = b' ∧ e = e' := by
          have := Option.some.inj heq
          exact ⟨congrArg Prod.fst this, congrArg Prod.snd this⟩
        rcases hor with hber | heer
        · rw [utc_year_bounds_some, hber, Except_error_bind]
        · cases hb : parse_UTC_offset b with
          | error errb =>
            rw [utc_year_bounds_some, hb, Except_error_bind,
              parse_UTC_offset_error hb]
          | ok pb =>
            rw [utc_year_bounds_some, hb, Except_ok_bind, heer,
              Except_error_bind]
    · intro b' e' heq hwb hwe
      obtain ⟨rfl, rfl⟩ : b = b' ∧ e = e' := by
        have := Option.some.inj heq
        exact ⟨congrArg Prod.fst this, congrArg Prod.snd this⟩
      obtain ⟨db, bb, hpb, -, -, -⟩ := parse_UTC_offset_wf hwb
      obtain ⟨de, be2, hpe, -, -, -⟩ := parse_UTC_offset_wf hwe
      rw [utc_year_bounds_some, hpb, Except_ok_bind, hpe, Except_ok_bind]
      exact ⟨_, rfl⟩

/-! ### Lunar Cycle Classifier (`astro.get_lunation_day`, astro.py 176-217) -/

/-- Shallow embedding of `astro.get_lunation_day`.  The ephem
quarter-phase oracles (`next_first_quarter_moon`, `next_full_moon`,
`next_last_quarter_moon`, each queried at `last_new`) enter as the
arguments `next_fq`, `next_full`, `next_lq`; Python's three
falling-through `if` blocks become a chain of guarded alternatives. -/
def get_lunation_day (today last_new next_new next_fq next_full next_lq : ℚ)
    (number_of_phase_ids : ℤ) : ℤ :=
  let num : ℤ := number_of_phase_ids - 1
  let first_approx :=
    pyRound ((today - last_new) / (next_new - last_new) * (num : ℚ))
  if first_approx < ⌈(num : ℚ) / 4⌉ ∧ today < next_fq then
    pyRound ((today - last_new) / (next_fq - last_new) * ((num : ℚ) / 4))
  else if first_approx < ⌈(num : ℚ) / 2⌉ ∧ today < next_full then
    pyRound ((today - last_new) / (next_full - last_new) * ((num : ℚ) / 2))
  else if first_approx < ⌈(num : ℚ) * 3 / 4⌉ ∧ today < next_lq then
    pyRound ((today - last_new) / (next_lq - last_new) * ((num : ℚ) * 3 / 4))
  else first_approx

/-- C4: within a lunation (`last_new ≤ today ≤ next_new`,
`last_new < next_new`) the classifier returns an integer in
`[0, num_ids - 1]`, and returns `0` at `today = last_new`. -/
theorem get_lunation_day_range
    (today last_new next_new next_fq next_full next_lq : ℚ) (n : ℤ)
    (hn : 1 ≤ n) (h1 : last_new ≤ today) (h2 : today ≤ next_new)
    (h3 : last_new < next_new) :
    (0 ≤ get_lunation_day today last_new next_new next_fq next_full next_lq n ∧
     get_lunation_day today last_new next_new next_fq next_full next_lq n
       ≤ n - 1) ∧
    get_lunation_day last_new last_new next_new next_fq next_full next_lq n
      = 0 := by
  have hnum : (0 : ℚ) ≤ ((n - 1 : ℤ) : ℚ) := by
    have : (1 : ℚ) ≤ (n : ℚ) := by exact_mod_cast hn
    push_cast
    linarith
  have hbound : ∀ x : ℚ, 0 ≤ x → x ≤ ((n - 1 : ℤ) : ℚ) →
      0 ≤ pyRound x ∧ pyRound x ≤ n - 1 :=
    fun x hx hxn => ⟨pyRound_nonneg hx, pyRound_le_of_le hxn⟩
  have hq : ∀ q c : ℚ, today < q → 0 ≤ c → c ≤ ((n - 1 : ℤ) : ℚ) →
      0 ≤ pyRound ((today - last_new) / (q - last_new) * c) ∧
      pyRound ((today - last_new) / (q - last_new) * c) ≤ n - 1 := by
    intro q c hlt hc hcn
    have hd : (0 : ℚ) < q - last_new := by linarith
    have hr1 : (today - last_new) / (q - last_new) ≤ 1 :=
      (div_le_one hd).mpr (by linarith)
    have hr0 : (0 : ℚ) ≤ (today - last_new) / (q - last_new) :=
      div_nonneg (by linarith) hd.le
    refine hbound _ (mul_nonneg hr0 hc) ?_
    calc (today - last_new) / (q - last_new) * c ≤ 1 * c :=
          mul_le_mul_of_nonneg_right hr1 hc
      _ = c := one_mul c
      _ ≤ ((n - 1 : ℤ) : ℚ) := hcn
  constructor
  · simp only [get_lunation_day]
    split_ifs with g1 g2 g3
    · exact hq next_fq _ g1.2 (by linarith) (by linarith)
    · exact hq next_full _ g2.2 (by linarith) (by linarith)
    · exact hq next_lq _ g3.2 (by linarith) (by linarith)
    · -- fall-through: the linear first approximation itself
      have hd : (0 : ℚ) < next_new - last_new := by linarith
      have hr1 : (today - last_new) / (next_new - last_new) ≤ 1 :=
        (div_le_one hd).mpr (by linarith)
      have hr0 : (0 : ℚ) ≤ (today - last_new) / (next_new - last_new) :=
        div_nonneg (by linarith) hd.le
      refine hbound _ (mul_nonneg hr0 hnum) ?_
      calc (today - last_new) / (next_new - last_new) * ((n - 1 : ℤ) : ℚ)
          ≤ 1 * ((n - 1 : ℤ) : ℚ) := mul_le_mul_of_nonneg_right hr1 hnum
        _ = ((n - 1 : ℤ) : ℚ) := one_mul _
  · simp only [get_lunation_day]
    split_ifs <;> simp [sub_self, pyRound_zero]

theorem get_lunation_day_range_witness :
    (1 ≤ (28 : ℤ)) ∧ ((0 : ℚ) ≤ 0) ∧ ((0 : ℚ) ≤ 29) ∧ ((0 : ℚ) < 29) ∧
    ((0 ≤ get_lunation_day 0 0 29 7 15 22 28 ∧
      get_lunation_day 0 0 29 7 15 22 28 ≤ 28 - 1) ∧
     get_lunation_day 0 0 29 7 15 22 28 = 0) :=
  ⟨by norm_num, by norm_num, by norm_num, by norm_num,
   get_lunation_day_range 0 0 29 7 15 22 28 (by norm_num) (by norm_num)
     (by norm_num) (by norm_num)⟩

/-! ### Daily event assembly (`Astro.__init__`, astro.py 268-284) -/

/-- Event labels.  `labelRank` mirrors the lexicographic order of the
Python label strings used as sort tie-breakers:
`"max height" < "noon" < "rise" < "set"`. -/
inductive Label
  | maxHeight
  | noon
  | rise
  | set_
deriving DecidableEq

def labelRank : Label → ℕ
  | .maxHeight => 0
  | .noon => 1
  | .rise => 2
  | .set_ => 3

/-- `transit_label = 'noon' if name == 'Sun' else 'max height'`
(astro.py 263-266). -/
def transitLabelFor (name : String) : Label :=
  if name = "Sun" then .noon else .maxHeight

/-- Python tuple comparison on `(time, label)` pairs as used by
`rns.sort()`.  By the time the list is sorted every time is defined, so
comparing through `Option.getD` agrees with the source. -/
def eventLE (a b : Option ℚ × Label) : Prop :=
  a.1.getD 0 < b.1.getD 0 ∨
    (a.1.getD 0 = b.1.getD 0 ∧ labelRank a.2 ≤ labelRank b.2)

instance : DecidableRel eventLE := fun a b => by
  unfold eventLE
  infer_instance

instance : IsTotal (Option ℚ × Label) eventLE :=
  ⟨by
    intro a b
    unfold eventLE
    rcases lt_trichotomy (a.1.getD 0) (b.1.getD 0) with h | h | h
    · exact Or.inl (Or.inl h)
    · rcases le_total (labelRank a.2) (labelRank b.2) with h2 | h2
      · exact Or.inl (Or.inr ⟨h, h2⟩)
      · exact Or.inr (Or.inr ⟨h.symm, h2⟩)
    · exact Or.inr (Or.inl h)⟩

instance : IsTrans (Option ℚ × Label) eventLE :=
  ⟨by
    intro a b c hab hbc
    unfold eventLE at hab hbc ⊢
    rcases hab with h | ⟨h1, h2⟩ <;> rcases hbc with h' | ⟨h1', h2'⟩
    · exact Or.inl (lt_trans h h')
    · exact Or.inl (h1' ▸ h)
    · exact Or.inl (h1 ▸ h')
    · exact Or.inr ⟨h1.trans h1', le_trans h2 h2'⟩⟩

/-- Python `list.remove`: delete the first element equal to `t`
(the source never calls it on a missing element). -/
def pyRemove {α : Type} [DecidableEq α] : List α → α → List α
  | [], _ => []
  | x :: rest, t => if x = t then rest else x :: pyRemove rest t

/-- `for t in reversed(list(rns)): if t[0] == None: rns.remove(t)`
(astro.py 275-277): iterate over a reversed snapshot, removing each
undefined event from the live list. -/
def removeUndefined (rns : List (Option ℚ × Label)) :
    List (Option ℚ × Label) :=
  (rns.reverse).foldl
    (fun acc t => if t.1 = none then pyRemove acc t else acc) rns

/-- One day of the rise/transit/set assembly loop (astro.py 269-284):
build the three candidate events, discard the undefined ones, and sort
chronologically.  The caller appends the result to the year series. -/
def assembleDay (rise_t transit_t set_t : Option ℚ) (transit_label : Label) :
    List (Option ℚ × Label) :=
  List.insertionSort eventLE (removeUndefined
    [(rise_t, Label.rise), (transit_t, transit_label), (set_t, Label.set_)])

theorem removeUndefined_three (a b c : Option ℚ) (lbl : Label) :
    removeUndefined [(a, Label.rise), (b, lbl), (c, Label.set_)]
      = ([(a, Label.rise), (b, lbl), (c, Label.set_)]).filter
          (fun t => t.1.isSome) := by
  cases lbl <;> cases a <;> cases b <;> cases c <;>
    simp [removeUndefined, pyRemove, List.filter]

/-- C6: a day on which rise, transit and set are all undefined
contributes zero events (and no failure); in general the undefined
events are discarded and the defined ones are appended in chronological
order. -/
theorem assembleDay_spec (rise_t transit_t set_t : Option ℚ) (lbl : Label) :
    assembleDay none none none lbl = [] ∧
    (assembleDay rise_t transit_t set_t lbl).Perm
      (([(rise_t, Label.rise), (transit_t, lbl), (set_t, Label.set_)]).filter
        (fun t => t.1.isSome)) ∧
    List.Sorted eventLE (assembleDay rise_t transit_t set_t lbl) ∧
    ∀ t ∈ assembleDay rise_t transit_t set_t lbl, t.1 ≠ none := by
  have hperm : (assembleDay rise_t transit_t set_t lbl).Perm
      (([(rise_t, Label.rise), (transit_t, lbl), (set_t, Label.set_)]).filter
        (fun t => t.1.isSome)) := by
    unfold assembleDay
    rw [removeUndefined_three]
    exact List.perm_insertionSort eventLE _
  refine ⟨?_, hperm, ?_, ?_⟩
  · unfold assembleDay
    rw [removeUndefined_three]
    cases lbl <;> rfl
  · exact List.sorted_insertionSort eventLE _
  · intro t ht
    have := hperm.mem_iff.mp ht
    have hmem := List.mem_filter.mp this
    exact Option.isSome_iff_ne_none.mp (by simpa using hmem.2)

/-! ### Altitude-curve boundary handling (`Astro.__init__`, astro.py
294-334) -/

/-- The trailing-rise check (astro.py 324-334): a leftover rise with no
matching set that still precedes year-end densifies from that rise to
year-end.  (`len(allrises) > len(allsets)` short-circuits before
`allrises.index[-1]` is read, so an empty rise series is safe here.) -/
def trailingSeg (e : ℚ) (rises sets' : List ℚ) : List (ℚ × ℚ) :=
  match rises.getLast? with
  | some lastRise =>
    if rises.length > sets'.length ∧ lastRise < e then [(lastRise, e)] else []
  | none => []

/-- The densification plan of the heights assembly (astro.py 303-334),
as the list of `(start, stop)` bounds handed to `fill_in_heights`: the
already-risen special case from year-start to the first set (which is
then dropped from the set series), the main `zip(allrises, allsets)`
loop, and the trailing-rise segment.  `none` models the IndexError the
source raises on an empty rise or set series
(`allsets.index[0]` / `allrises.index[0]`). -/
def heightSegmentBounds (begin e : ℚ) (rises sets : List ℚ) :
    Option (List (ℚ × ℚ)) :=
  match sets, rises with
  | [], _ => none
  | _, [] => none
  | s0 :: ss, r0 :: rs =>
    if s0 < r0 then
      some ([(begin, s0)] ++ (r0 :: rs).zip ss ++ trailingSeg e (r0 :: rs) ss)
    else
      some ((r0 :: rs).zip (s0 :: ss)
        ++ trailingSeg e (r0 :: rs) (s0 :: ss))

/-- C3: when the first `set` precedes the first `rise`, the first
densified segment runs from year-start to that first `set`, and the set
series is advanced past it before pairing: the main-loop pairs are
`rises.zip sets.tail`, so the dropped first `set` could only meet the
first rise again if it literally recurred later in the set series. -/
theorem first_set_before_first_rise (begin e r0 s0 : ℚ) (rs ss : List ℚ)
    (h : s0 < r0) :
    heightSegmentBounds begin e (r0 :: rs) (s0 :: ss)
      = some ([(begin, s0)] ++ (r0 :: rs).zip ss
          ++ trailingSeg e (r0 :: rs) ss) ∧
    (∀ x, (x, s0) ∈ (r0 :: rs).zip ss → s0 ∈ ss) := by
  constructor
  · simp [heightSegmentBounds, h]
  · intro x hx
    exact (List.of_mem_zip hx).2

theorem first_set_before_first_rise_witness :
    (1 : ℚ) < 2 ∧
    (heightSegmentBounds 0 10 [2] [1]
      = some ([((0 : ℚ), (1 : ℚ))] ++ ([(2 : ℚ)]).zip ([] : List ℚ)
          ++ trailingSeg 10 [2] []) ∧
     (∀ x, (x, (1 : ℚ)) ∈ ([(2 : ℚ)]).zip ([] : List ℚ) →
        (1 : ℚ) ∈ ([] : List ℚ))) :=
  ⟨by norm_num, first_set_before_first_rise 0 10 2 1 [] [] (by norm_num)⟩

/-! ### Altitude densification (`astro.fill_in_heights`, astro.py
107-173) -/

/-- Python `round(q, 6)` (banker's rounding at the sixth decimal), as
used by the stepping loop's guard. -/
def pyRound6 (q : ℚ) : ℚ := (pyRound (q * 1000000) : ℚ) / 1000000

/-- The `while round(obs.date, 6) < round(stop, 6)` loop of
`fill_in_heights` (astro.py 155-160): the sequence of observer dates
visited before the final jump to `stop`.  The `0 < step` guard makes
the model total; the source would never terminate for a non-positive
step, and every caller passes a positive one. -/
def loopTimes (date stop step : ℚ) : List ℚ :=
  if h : pyRound6 date < pyRound6 stop ∧ 0 < step then
    date :: loopTimes (date + step) stop step
  else []
termination_by (⌈(stop + 1 - date) / step⌉).toNat
decreasing_by
  obtain ⟨hlt, hstep⟩ := h
  have h1 := le_pyRound (date * 1000000)
  have h2 := pyRound_le (stop * 1000000)
  unfold pyRound6 at hlt
  have hq : (pyRound (date * 1000000) : ℚ) < (pyRound (stop * 1000000) : ℚ) := by
    linarith
  have hlt2 : date < stop + 1 := by linarith
  have hpos : (0 : ℚ) < (stop + 1 - date) / step :=
    div_pos (by linarith) hstep
  have hge : 1 ≤ ⌈(stop + 1 - date) / step⌉ := Int.ceil_pos.mpr hpos
  have heq : (stop + 1 - (date + step)) / step = (stop + 1 - date) / step - 1 := by
    field_simp
    ring
  rw [heq, Int.ceil_sub_one]
  omega

/-- Shallow embedding of `astro.fill_in_heights` (astro.py 107-173).
The ephem altitude oracle enters as `alt : ℚ → ℝ` (the body's computed
altitude at an observer date, in radians); each sample is
`sin(alt t)`; `none` is the NaN marker appended `step/100` past the
stop time.  The observer copy discipline is modelled separately in
`fill_in_heights_heap`. -/
noncomputable def fill_in_heights (start stop step : ℚ) (alt : ℚ → ℝ)
    (append_NaN : Bool) : List ℚ × List (Option ℝ) :=
  let ts := loopTimes start stop step ++ [stop]
  (if append_NaN then ts ++ [stop + step/100] else ts,
   (ts.map fun t => some (Real.sin (alt t)))
     ++ if append_NaN then [none] else [])

/-- `hei[hei < 0] = float('NaN')` (astro.py 341): negative samples are
overwritten with the NaN marker; NaN itself does not compare `< 0` in
floating point and stays put. -/
noncomputable def cleanupHeights (hs : List (Option ℝ)) : List (Option ℝ) :=
  hs.map (fun v => match v with
    | none => none
    | some x => if x < 0 then none else some x)

/-- The year's altitude series (astro.py 294-344): densify every
segment planned by `heightSegmentBounds` via `fill_in_heights` (with
its NaN separator appended), concatenate, then overwrite residual
negative values with NaN.  (The per-pair `assert(rise_t < set_t)` of
the main loop aborts the whole computation when violated and is not a
concern of this invariant.) -/
noncomputable def assembleHeights (begin e step : ℚ) (rises sets : List ℚ)
    (alt : ℚ → ℝ) : Option (List (Option ℝ)) :=
  (heightSegmentBounds begin e rises sets).map (fun segs =>
    cleanupHeights (segs.flatMap
      (fun p => (fill_in_heights p.1 p.2 step alt true).2)))

theorem cleanupHeights_clean (hs : List (Option ℝ)) :
    ∀ v ∈ cleanupHeights hs, v = none ∨ ∃ x, v = some x ∧ 0 ≤ x := by
  intro v hv
  obtain ⟨u, hu, rfl⟩ := List.mem_map.mp hv
  cases u with
  | none => exact Or.inl rfl
  | some x =>
    by_cases hx : x < 0
    · exact Or.inl (by simp [hx])
    · exact Or.inr ⟨x, by simp [hx], not_lt.mp hx⟩

/-- C8: every value stored in the assembled altitude series is either
the NaN marker or non-negative, and each densified segment ends in
exactly one NaN marker (its other samples are real values), separating
it from the next segment. -/
theorem assembled_heights_clean (begin e step : ℚ) (rises sets : List ℚ)
    (alt : ℚ → ℝ) (hs : List (Option ℝ))
    (hres : assembleHeights begin e step rises sets alt = some hs) :
    (∀ v ∈ hs, v = none ∨ ∃ x, v = some x ∧ 0 ≤ x) ∧
    (∀ a b : ℚ, ∃ l, (fill_in_heights a b step alt true).2 = l ++ [none] ∧
      ∀ u ∈ l, u ≠ none) := by
  constructor
  · intro v hv
    unfold assembleHeights at hres
    cases hb : heightSegmentBounds begin e rises sets with
    | none =>
      rw [hb] at hres
      exact absurd hres (by simp)
    | some segs =>
      rw [hb] at hres
      simp only [Option.map_some'] at hres
      have := Option.some.inj hres
      rw [← this] at hv
      exact cleanupHeights_clean _ v hv
  · intro a b
    refine ⟨(loopTimes a b step ++ [b]).map
      (fun t => some (Real.sin (alt t))), ?_, ?_⟩
    · rfl
    · intro u hu
      obtain ⟨t, ht, rfl⟩ := List.mem_map.mp hu
      simp

theorem loopTimes_degenerate : loopTimes 0 0 1 = [] := by
  rw [loopTimes]
  rw [dif_neg]
  simp

theorem assembled_heights_clean_witness :
    assembleHeights 0 1 1 [0] [0] (fun _ => (0 : ℝ)) = some [some (0 : ℝ), none] ∧
    ((∀ v ∈ [some (0 : ℝ), none], v = none ∨ ∃ x, v = some x ∧ 0 ≤ x) ∧
     (∀ a b : ℚ, ∃ l,
        (fill_in_heights a b 1 (fun _ => (0 : ℝ)) true).2 = l ++ [none] ∧
        ∀ u ∈ l, u ≠ none)) := by
  have hseg : heightSegmentBounds 0 1 [0] [0] = some [((0 : ℚ), (0 : ℚ))] := by
    simp [heightSegmentBounds, trailingSeg]
  have hfill : (fill_in_heights 0 0 1 (fun _ => (0 : ℝ)) true).2
      = [some (0 : ℝ), none] := by
    simp [fill_in_heights, loopTimes_degenerate, Real.sin_zero]
  have hres0 : assembleHeights 0 1 1 [0] [0] (fun _ => (0 : ℝ))
      = some [some (0 : ℝ), none] := by
    simp [assembleHeights, hseg, hfill, cleanupHeights]
  exact ⟨hres0, assembled_heights_clean 0 1 1 [0] [0] (fun _ => 0)
    [some (0 : ℝ), none] hres0⟩

/-! ### Observer aliasing discipline (`astro.copy_ephem_observer`,
astro.py 28-41, and `fill_in_heights`, astro.py 149-173) -/

/-- The attributes of an `ephem.Observer` that the source copies. -/
structure Observer where
  date : ℚ
  epoch : ℚ
  long : ℚ
  lat : ℚ
  elev : ℚ
  temp : ℚ
  pressure : ℚ
  horizon : ℚ
deriving DecidableEq

/-- `copy_ephem_observer` (astro.py 28-41): a brand-new observer whose
attributes are set to the same values as the original's. -/
def copy_ephem_observer (original_observer : Observer) : Observer :=
  { date := original_observer.date
    epoch := original_observer.epoch
    long := original_observer.long
    lat := original_observer.lat
    elev := original_observer.elev
    temp := original_observer.temp
    pressure := original_observer.pressure
    horizon := original_observer.horizon }

/-- A small heap of observer objects: Python variables hold references
(modelled as indices), and attribute assignment mutates the referenced
cell in place.  `setDate r d` is `obs.date = d` on reference `r`. -/
def setDate (heap : List Observer) (r : ℕ) (d : ℚ) : List Observer :=
  heap.modify (fun o => { o with date := d }) r

/-- Heap-level embedding of `fill_in_heights` (astro.py 149-173),
tracking the observer objects: `obs = copy_ephem_observer(observe)`
allocates a fresh cell from the caller's observer, and the function
then only ever assigns `obs.date` (`obs.date = start`,
`obs.date += step` each iteration, `obs.date = stop`; the NaN timestamp
`obs.date + step/100` is read without assignment).  Returns the final
heap together with the sample times and heights. -/
noncomputable def fill_in_heights_heap (start stop step : ℚ)
    (observeRef : ℕ) (heap : List Observer) (alt : ℚ → ℝ)
    (append_NaN : Bool) :
    List Observer × List ℚ × List (Option ℝ) :=
  let obsRef := heap.length
  let heap1 := heap ++ [copy_ephem_observer
    (heap.getD observeRef ⟨0, 0, 0, 0, 0, 0, 0, 0⟩)]
  let heap2 := setDate heap1 obsRef start
  let heap3 := (loopTimes start stop step).foldl
      (fun h t => setDate h obsRef (t + step)) heap2
  let heap4 := setDate heap3 obsRef stop
  (heap4, fill_in_heights start stop step alt append_NaN)

theorem setDate_ne (heap : List Observer) (r j : ℕ) (d : ℚ) (h : r ≠ j) :
    (setDate heap r d)[j]? = heap[j]? := by
  unfold setDate
  exact List.getElem?_modify_ne _ heap h

theorem foldl_setDate_ne (l : List ℚ) (r j : ℕ) (h : r ≠ j)
    (f : ℚ → ℚ) :
    ∀ heap : List Observer,
      (l.foldl (fun hp t => setDate hp r (f t)) heap)[j]? = heap[j]? := by
  induction l with
  | nil => intro heap; rfl
  | cons t ts ih =>
    intro heap
    rw [List.foldl_cons, ih (setDate heap r (f t)), setDate_ne _ _ _ _ h]

/-- C9: `fill_in_heights` never changes the caller's observer: it works
on a fresh copy, so after the call the caller's heap cell — every field
of it, the `date` included — is exactly its pre-call value. -/
theorem fill_in_heights_frame (start stop step : ℚ) (observeRef : ℕ)
    (heap : List Observer) (alt : ℚ → ℝ) (append_NaN : Bool)
    (h : observeRef < heap.length) :
    (fill_in_heights_heap start stop step observeRef heap alt
        append_NaN).1[observeRef]? = heap[observeRef]? := by
  have hne : heap.length ≠ observeRef := (Nat.ne_of_lt h).symm
  simp only [fill_in_heights_heap]
  rw [setDate_ne _ _ _ _ hne,
    foldl_setDate_ne _ _ _ hne _ _,
    setDate_ne _ _ _ _ hne,
    List.getElem?_append_left h]

theorem fill_in_heights_frame_witness :
    0 < [(⟨1, 2, 3, 4, 5, 6, 7, 8⟩ : Observer)].length ∧
    (fill_in_heights_heap 0 0 1 0 [(⟨1, 2, 3, 4, 5, 6, 7, 8⟩ : Observer)]
        (fun _ => (0 : ℝ)) true).1[0]?
      = [(⟨1, 2, 3, 4, 5, 6, 7, 8⟩ : Observer)][0]? :=
  ⟨by norm_num,
   fill_in_heights_frame 0 0 1 0 [⟨1, 2, 3, 4, 5, 6, 7, 8⟩]
     (fun _ => 0) true (by norm_num)⟩
